import Mathlib

/-!
Verification development for the maturin import hook (python side):
build cache records (_building.py), freshness oracle (project_importer.py),
file locks (_file_lock.py), path-dependency resolution (_resolve_project.py)
and settings translation (settings.py), shallowly embedded in Lean.
-/

namespace Maturin

/-- JSON values as produced by json.load for the record files this code reads
and writes: numbers, strings, arrays and objects (the records written by the
hook never contain booleans or null, and object keys are unique as in a parsed
python dict). Timestamps are modelled as rational numbers. -/
inductive Json where
  | num (q : ℚ)
  | str (s : String)
  | arr (elems : List Json)
  | obj (fields : List (String × Json))

/-- Python exceptions relevant to the modelled code paths. -/
inductive PyExc where
  | fileNotFoundError
  | jsonDecodeError
  | keyError
  | typeError
  deriving DecidableEq, Repr

/-- Result of running a python snippet: a returned value or a raised
exception. -/
inductive PyResult (α : Type) where
  | ok (a : α)
  | exc (e : PyExc)
  deriving DecidableEq, Repr

mutual

/-- Structural equality of json values, as python == compares the
corresponding dict/list/str/number values. -/
def Json.beq : Json → Json → Bool
  | .num a, .num b => a == b
  | .str a, .str b => a == b
  | .arr xs, .arr ys => Json.beqList xs ys
  | .obj xs, .obj ys => Json.beqFields xs ys
  | _, _ => false

def Json.beqList : List Json → List Json → Bool
  | [], [] => true
  | x :: xs, y :: ys => Json.beq x y && Json.beqList xs ys
  | _, _ => false

def Json.beqFields : List (String × Json) → List (String × Json) → Bool
  | [], [] => true
  | (k, v) :: xs, (l, w) :: ys => k == l && Json.beq v w && Json.beqFields xs ys
  | _, _ => false

end

/-- The BuildStatus dataclass (_building.py). from_json stores the parsed json
values without validating them, so build_mtime, maturin_args and
maturin_output are kept as raw json values; source_path passes through
Path(), which requires a string, and a Path is modelled by its string form. -/
structure BuildStatus where
  build_mtime : Json
  source_path : String
  maturin_args : Json
  maturin_output : Json

/-- BuildStatus.to_json: the dict dumped into the record file. -/
def BuildStatus.to_json (s : BuildStatus) : Json :=
  .obj [("build_mtime", s.build_mtime), ("source_path", .str s.source_path),
        ("maturin_args", s.maturin_args), ("maturin_output", s.maturin_output)]

/-- json_data[key] on a parsed json value: KeyError when an object lacks the
key, TypeError when subscripting a non-object value with a string key. -/
def pySubscript (j : Json) (key : String) : PyResult Json :=
  match j with
  | .obj fields => match fields.lookup key with
    | some v => .ok v
    | none => .exc .keyError
  | _ => .exc .typeError

/-- Path(v): accepts a string, raises TypeError for other json values. -/
def pyPath (j : Json) : PyResult String :=
  match j with
  | .str s => .ok s
  | _ => .exc .typeError

/-- BuildStatus.from_json (_building.py): evaluates the four subscripts (and
the Path constructor) left to right inside a try block that catches only
KeyError, returning None in that case; every other exception propagates to
the caller. -/
def BuildStatus.from_json (j : Json) : PyResult (Option BuildStatus) :=
  match pySubscript j "build_mtime" with
  | .exc .keyError => .ok none
  | .exc e => .exc e
  | .ok bm =>
    match pySubscript j "source_path" with
    | .exc .keyError => .ok none
    | .exc e => .exc e
    | .ok spv =>
      match pyPath spv with
      | .exc e => .exc e
      | .ok sp =>
        match pySubscript j "maturin_args" with
        | .exc .keyError => .ok none
        | .exc e => .exc e
        | .ok args =>
          match pySubscript j "maturin_output" with
          | .exc .keyError => .ok none
          | .exc e => .exc e
          | .ok out => .ok (some ⟨bm, sp, args, out⟩)

/-- Content of one build-status record file: text that is not valid json
(json.load raises JSONDecodeError on it), or a parsed json value. -/
inductive RecordFile where
  | invalidJson
  | content (j : Json)

/-- The build_status directory of the build cache: one record file per source
path. The real file name is the sha1 hash of the source path; the model keys
records directly by the source path string (hash collisions are accepted as
negligible by the design). -/
abbrev Cache := List (String × RecordFile)

/-- LockedBuildCache.store_build_status: overwrites the record file for
status.source_path with the json dump of the status. -/
def store_build_status (c : Cache) (s : BuildStatus) : Cache :=
  (s.source_path, .content s.to_json) :: c

/-- LockedBuildCache.get_build_status: opens the record file (a missing file
raises FileNotFoundError, which is caught and becomes None), json.load parses
it (raising JSONDecodeError on corrupt text, which is not caught), and the
parsed value goes through BuildStatus.from_json. -/
def get_build_status (c : Cache) (source_path : String) : PyResult (Option BuildStatus) :=
  match c.lookup source_path with
  | none => .ok none
  | some .invalidJson => .exc .jsonDecodeError
  | some (.content j) => BuildStatus.from_json j

/-- The MaturinSettings dataclass with its field defaults (settings.py); the
config dict is modelled as an association list preserving insertion order. -/
structure MaturinSettings where
  release : Bool := false
  strip : Bool := false
  quiet : Bool := false
  jobs : Option Nat := none
  profile : Option String := none
  features : Option (List String) := none
  all_features : Bool := false
  no_default_features : Bool := false
  target : Option String := none
  ignore_rust_version : Bool := false
  color : Option Bool := none
  frozen : Bool := false
  locked : Bool := false
  offline : Bool := false
  config : Option (List (String × String)) := none
  unstable_flags : Option (List String) := none
  verbose : Nat := 0
  rustc_flags : Option (List String) := none

/-- MaturinSettings.to_args (settings.py), emitting flags in the fixed source
order. The features field goes through python truthiness (an empty list
contributes nothing) while the other optional fields test against None. -/
def MaturinSettings.to_args (s : MaturinSettings) : List String :=
  (if s.release then ["--release"] else [])
  ++ (if s.strip then ["--strip"] else [])
  ++ (if s.quiet then ["--quiet"] else [])
  ++ (match s.jobs with | some n => ["--jobs", toString n] | none => [])
  ++ (match s.profile with | some p => ["--profile", p] | none => [])
  ++ (match s.features with
      | some (f :: fs) => ["--features", String.intercalate "," (f :: fs)]
      | _ => [])
  ++ (if s.all_features then ["--all-features"] else [])
  ++ (if s.no_default_features then ["--no-default-features"] else [])
  ++ (match s.target with | some t => ["--target", t] | none => [])
  ++ (if s.ignore_rust_version then ["--ignore-rust-version"] else [])
  ++ (match s.color with
      | some true => ["--color", "always"]
      | some false => ["--color", "never"]
      | none => [])
  ++ (if s.frozen then ["--frozen"] else [])
  ++ (if s.locked then ["--locked"] else [])
  ++ (if s.offline then ["--offline"] else [])
  ++ (match s.config with
      | some kvs => (kvs.map (fun kv => ["--config", kv.1 ++ "=" ++ kv.2])).flatten
      | none => [])
  ++ (match s.unstable_flags with
      | some flags => (flags.map (fun f => ["-Z", f])).flatten
      | none => [])
  ++ (if s.verbose > 0 then ["-" ++ String.mk (List.replicate s.verbose 'v')] else [])
  ++ (match s.rustc_flags with | some flags => flags | none => [])

/-- MaturinSettings.default(): MaturinSettings() sets no flags but default()
corresponds to some sensible defaults (color=True). -/
def MaturinSettings.default : MaturinSettings := { color := some true }

/-- MaturinProjectImporter.get_settings: the settings supplied to the importer
if any, otherwise MaturinSettings.default(). -/
def importer_get_settings (self_settings : Option MaturinSettings) : MaturinSettings :=
  match self_settings with
  | some s => s
  | none => MaturinSettings.default

/-- A filesystem tree entry: a file with its st_mtime (seconds, modelled as a
rational number), or a directory with its children. -/
inductive FSEntry where
  | file (name : String) (mtime : ℚ)
  | dir (name : String) (children : List FSEntry)

/-- A filesystem path, as the list of its components. -/
abbrev FsPath := List String

/-- The string form of a path, as str(path) produces it. -/
def pathStr (p : FsPath) : String := String.intercalate "/" p

/-- python min() over the mtimes yielded by a generator: ValueError on an
empty sequence, modelled as none. -/
def pyMin (l : List ℚ) : Option ℚ :=
  match l with
  | [] => none
  | x :: xs => some (xs.foldl min x)

/-- python max() over the mtimes yielded by a generator: ValueError on an
empty sequence, modelled as none. -/
def pyMax (l : List ℚ) : Option ℚ :=
  match l with
  | [] => none
  | x :: xs => some (xs.foldl max x)

mutual

/-- One child examined by _get_files_in_dirs (project_importer.py) inside the
directory with path p: a file is yielded; a child directory is descended into
exactly when its name is not in excluded_dir_names and its path is not in
excluded_dir_paths, otherwise it contributes nothing. -/
def filesOfEntry (names : List String) (xpaths : List FsPath) (p : FsPath) :
    FSEntry → List (FsPath × ℚ)
  | .file n m => [(p ++ [n], m)]
  | .dir n cs =>
    if n ∉ names ∧ (p ++ [n]) ∉ xpaths then filesOfList names xpaths (p ++ [n]) cs
    else []

/-- The iterdir loop of _get_files_in_dirs over the children of the directory
with path p, in order. The roots handed to _get_files_in_dirs are themselves
never filtered, matching the source, where only the children of a visited
directory are tested: scanning a root means scanning its child list here. -/
def filesOfList (names : List String) (xpaths : List FsPath) (p : FsPath) :
    List FSEntry → List (FsPath × ℚ)
  | [] => []
  | e :: rest => filesOfEntry names xpaths p e ++ filesOfList names xpaths p rest

end

/-- _get_files_in_dirs over the whole iterable of root directories, each given
by its path and its children. -/
def getFilesInDirs (names : List String) (xpaths : List FsPath) :
    List (FsPath × List FSEntry) → List (FsPath × ℚ)
  | [] => []
  | d :: ds => filesOfList names xpaths d.1 d.2 ++ getFilesInDirs names xpaths ds

/-- _get_installed_package_mtime (project_importer.py): for a directory root,
the minimum mtime over all files recursively contained (excluding the
configured directory names; min of an empty collection raises ValueError,
caught and turned into None); for a single file, its own mtime; None when the
path is missing on disk (stat raises FileNotFoundError, caught). The second
component models what is on disk at the path: none means nothing there. -/
def _get_installed_package_mtime (names : List String) (root : FsPath × Option FSEntry) :
    Option ℚ :=
  match root.2 with
  | some (.dir _ cs) => pyMin ((filesOfList names [] root.1 cs).map (fun f => f.2))
  | some (.file _ m) => some m
  | none => none

/-- A directory on disk given by its path and its children; entries = none
models a missing directory, whose iterdir raises FileNotFoundError. -/
abbrev DirOnDisk := FsPath × Option (List FSEntry)

/-- _get_project_mtime (project_importer.py): the maximum mtime over all files
under the project directory and all path dependencies, excluding the
configured directory names and, when the installed package root is a
directory, that directory itself. A missing root directory (FileNotFoundError
from iterdir) or an empty file collection (ValueError from max) is caught and
gives None. -/
def _get_project_mtime (project_dir : DirOnDisk) (all_path_dependencies : List DirOnDisk)
    (installed_root : FsPath × Option FSEntry) (names : List String) : Option ℚ :=
  let xpaths : List FsPath :=
    match installed_root.2 with
    | some (.dir _ _) => [installed_root.1]
    | _ => []
  let roots := project_dir :: all_path_dependencies
  if roots.all (fun r => r.2.isSome) then
    pyMax ((getFilesInDirs names xpaths (roots.map (fun r => (r.1, r.2.getD [])))).map
      (fun f => f.2))
  else none

/-- _package_is_up_to_date (project_importer.py): False when the project mtime
cannot be computed, otherwise installed mtime greater or equal project
mtime. -/
def _package_is_up_to_date (project_dir : DirOnDisk) (all_path_dependencies : List DirOnDisk)
    (installed_root : FsPath × Option FSEntry) (installed_package_mtime : ℚ)
    (names : List String) : Bool :=
  match _get_project_mtime project_dir all_path_dependencies installed_root names with
  | none => false
  | some pm => decide (installed_package_mtime ≥ pm)

/-- Outcome of the freshness check: a module spec for the up-to-date package,
or a reason string explaining why a rebuild is needed. -/
inductive UpToDateResult where
  | fresh
  | stale (reason : String)
  deriving DecidableEq, Repr

/-- math.isclose with its default tolerances rel_tol=1e-09 and abs_tol=0.0:
abs(a-b) less-or-equal max(rel_tol * max(abs(a), abs(b)), abs_tol). -/
def isclose (a b : ℚ) : Bool :=
  decide (|a - b| ≤ max ((1 / 1000000000) * max |a| |b|) 0)

/-- math.isclose applied to the raw json value stored as build_mtime: a
number compares fine, any other value raises TypeError. -/
def mathIsClose (j : Json) (b : ℚ) : PyResult Bool :=
  match j with
  | .num a => .ok (isclose a b)
  | _ => .exc .typeError

/-- The json value of a list of argument strings, for comparing a raw cached
maturin_args value against settings.to_args() as python != does. -/
def argsJson (args : List String) : Json := .arr (args.map .str)

/-- MaturinProjectImporter._get_spec_for_up_to_date_package
(project_importer.py), the freshness oracle, with the surrounding world made
explicit: force_rebuild is the importer flag, spec_found tells whether
_find_spec_for_package found a spec, installed_root is the result of
_find_installed_package_root together with what is on disk at that path, and
cache holds the build-status records. Checks run in source order and the
first failing check returns its reason. -/
def _get_spec_for_up_to_date_package (force_rebuild : Bool) (spec_found : Bool)
    (installed_root : Option (FsPath × Option FSEntry)) (project_dir : DirOnDisk)
    (all_path_dependencies : List DirOnDisk) (names : List String) (cache : Cache)
    (settings_args : List String) : PyResult UpToDateResult :=
  if force_rebuild then .ok (.stale "forcing rebuild")
  else if spec_found = false then .ok (.stale "package not already installed")
  else match installed_root with
  | none => .ok (.stale "could not find installed package root")
  | some root =>
    match _get_installed_package_mtime names root with
    | none => .ok (.stale "could not get installed package mtime")
    | some im =>
      if _package_is_up_to_date project_dir all_path_dependencies root im names = false then
        .ok (.stale "package is out of date")
      else match get_build_status cache (pathStr project_dir.1) with
      | .exc e => .exc e
      | .ok none => .ok (.stale "no build status found")
      | .ok (some st) =>
        if st.source_path ≠ pathStr project_dir.1 then
          .ok (.stale "source path in build status does not match the project dir")
        else match mathIsClose st.build_mtime im with
        | .exc e => .exc e
        | .ok c =>
          if c = false then
            .ok (.stale "installed package mtime does not match build status mtime")
          else if Json.beq st.maturin_args (argsJson settings_args) = false then
            .ok (.stale "current maturin args do not match the previous build")
          else .ok .fresh

/-- An exception raised by lock operations: LockError for a non-reentrant
re-acquisition or an unsupported filesystem, TimeoutError when the configured
timeout elapses before the lock is obtained. -/
inductive LockRaise where
  | lockError
  | timeoutError
  deriving DecidableEq, Repr

/-- FcntlFileLock.try_acquire (_file_lock.py): returns at once when the
instance already holds the lock; flock(LOCK_EX | LOCK_NB) raising OSError
with errno ENOSYS becomes a LockError; any other OSError (the lock is held by
another process) is swallowed, leaving the lock unacquired; otherwise
_is_locked becomes True. The world is static: flock_unsupported and
other_holds do not change during the call. -/
def fcntl_try_acquire (flock_unsupported : Bool) (other_holds : Bool) (is_locked : Bool) :
    Except LockRaise Bool :=
  if is_locked then .ok true
  else if flock_unsupported then .error .lockError
  else if other_holds then .ok false
  else .ok true

/-- The polling loop of FileLock.acquire (_file_lock.py): try_acquire, return
when locked, raise TimeoutError once the elapsed time exceeds the timeout,
otherwise sleep and retry. fuel is the number of retries the timeout still
allows; a static contended world makes every retry identical. -/
def acquire_loop (flock_unsupported : Bool) (other_holds : Bool) (fuel : ℕ) :
    Except LockRaise Bool :=
  match fcntl_try_acquire flock_unsupported other_holds false with
  | .error e => .error e
  | .ok true => .ok true
  | .ok false =>
    match fuel with
    | 0 => .error .timeoutError
    | n + 1 => acquire_loop flock_unsupported other_holds n

/-- FileLock.acquire (_file_lock.py): an instance that is already locked
raises a LockError at once (the lock is not reentrant), before any polling;
otherwise the polling loop runs. On success the new _is_locked value is
returned; on an exception the state is unchanged at the caller. -/
def file_lock_acquire (flock_unsupported : Bool) (other_holds : Bool) (is_locked : Bool)
    (fuel : ℕ) : Except LockRaise Bool :=
  if is_locked then .error .lockError
  else acquire_loop flock_unsupported other_holds fuel

/-- FcntlFileLock.release (_file_lock.py): unlocks the file descriptor and
clears _is_locked only when the lock is held; otherwise it does nothing.
FileLock.__del__ calls release, so destruction of a never-acquired lock goes
through the same no-op path. -/
def fcntl_release (is_locked : Bool) : Bool :=
  if is_locked then false else is_locked

/-- One operation on a single FileLock instance: an acquire attempt against a
static world, an explicit release, or the implicit release run on
destruction. -/
inductive LockOp where
  | acq (other_holds : Bool) (fuel : ℕ)
  | rel
  | del

/-- Effect of one operation on the _is_locked state, with the exception it
raises, if any; an exception leaves the state as the code left it before
raising. -/
def lock_step (flock_unsupported : Bool) (is_locked : Bool) : LockOp → Bool × Option LockRaise
  | .acq oh fuel =>
    match file_lock_acquire flock_unsupported oh is_locked fuel with
    | .ok b => (b, none)
    | .error e => (is_locked, some e)
  | .rel => (fcntl_release is_locked, none)
  | .del => (fcntl_release is_locked, none)

/-- The _is_locked state after a sequence of operations on one instance. -/
def lock_run (flock_unsupported : Bool) (is_locked : Bool) : List LockOp → Bool
  | [] => is_locked
  | op :: ops => lock_run flock_unsupported (lock_step flock_unsupported is_locked op).1 ops

/-- Modelled from the spec: the net acquisition state of the lock instance,
true after a successful acquire (one that found the instance unlocked, the
filesystem supporting flock, and no other holder), false after any release,
unchanged by a failed acquire. -/
def net_step (flock_unsupported : Bool) (is_locked : Bool) : LockOp → Bool
  | .acq oh _ =>
    if is_locked = false ∧ flock_unsupported = false ∧ oh = false then true else is_locked
  | .rel => false
  | .del => false

/-- The net acquisition state after a sequence of operations. -/
def net_run (flock_unsupported : Bool) (is_locked : Bool) : List LockOp → Bool
  | [] => is_locked
  | op :: ops => net_run flock_unsupported (net_step flock_unsupported is_locked op) ops

/-- AtomicOpenLock.try_acquire (_file_lock.py): returns at once when already
locked; os.open with O_CREAT | O_EXCL either creates the lock file atomically
(acquiring the lock) or fails with EEXIST when the file already exists, which
is tolerated, leaving the lock unacquired. State is (lock file exists,
instance is locked). The static world contains no other live process, so
EEXIST is the only OSError that can arise (the branch raising LockError for
other errnos is unreachable here). -/
def atomic_try_acquire (file_exists : Bool) (is_locked : Bool) : Bool × Bool :=
  if is_locked then (file_exists, true)
  else if file_exists then (file_exists, false)
  else (true, true)

/-- AtomicOpenLock.release (_file_lock.py): when locked, closes the
descriptor, clears the state and unlinks the lock file; otherwise does
nothing. -/
def atomic_release (file_exists : Bool) (is_locked : Bool) : Bool × Bool :=
  if is_locked then (false, false) else (file_exists, is_locked)

/-- The polling loop of FileLock.acquire for the AtomicOpenLock variant, in a
static world where no other process creates or removes the lock file. -/
def atomic_acquire_loop (file_exists : Bool) (fuel : ℕ) : (Bool × Bool) × Option LockRaise :=
  match atomic_try_acquire file_exists false with
  | (fe, true) => ((fe, true), none)
  | (fe, false) =>
    match fuel with
    | 0 => ((fe, false), some .timeoutError)
    | n + 1 => atomic_acquire_loop fe n

/-- FileLock.acquire for the AtomicOpenLock variant: LockError when the
instance is already locked, otherwise the polling loop with the given number
of retries before the timeout elapses. -/
def atomic_acquire (file_exists : Bool) (is_locked : Bool) (fuel : ℕ) :
    (Bool × Bool) × Option LockRaise :=
  if is_locked then ((file_exists, is_locked), some .lockError)
  else atomic_acquire_loop file_exists fuel

/-- MaturinProjectImporter._rebuild_project (project_importer.py), the part
inside the build-cache lock: run the freshness check; a fresh result returns
the existing spec without building, a stale result invokes the external build
tool and stores a new BuildStatus. The type W abstracts the world (filesystem
plus build cache); check abstracts _get_spec_for_up_to_date_package on that
world and build abstracts develop_build_project followed by
store_build_status. The boolean records whether this process built. -/
def rebuild_project_locked {W : Type} (check : W → UpToDateResult) (build : W → W) (w : W) :
    W × Bool :=
  match check w with
  | .fresh => (w, false)
  | .stale _ => (build w, true)

/-- N processes racing to import the same source serialize on the build-cache
lock (BuildCache.lock wraps each check-and-build in the file lock), so their
locked sections run one after the other; as the processes are identical, any
serialization order is N sequential runs. Returns the final world and how
many of the N processes invoked the build tool. -/
def run_serialized {W : Type} (check : W → UpToDateResult) (build : W → W) :
    ℕ → W → W × ℕ
  | 0, w => (w, 0)
  | n + 1, w =>
    let s := rebuild_project_locked check build w
    let r := run_serialized check build n s.1
    (r.1, (if s.2 then 1 else 0) + r.2)

/-- The Cargo.toml manifests on disk relevant to path-dependency discovery:
an association from a project directory (identified by its resolved path
string) to the path dependencies listed in its manifest. A directory absent
from the list has no Cargo.toml. -/
abbrev Manifests := List (String × List String)

/-- The path dependencies contributed by one visited directory: none when its
Cargo.toml does not exist, otherwise the path dependencies of its parsed
manifest (_find_all_path_dependencies reads dependency_project_dir /
"Cargo.toml"). -/
def depsOf (m : Manifests) (d : String) : List String :=
  match m.lookup d with
  | some ds => ds
  | none => []

/-- The pool of directories the traversal can ever push: every manifest value. -/
def manifestTargets (m : Manifests) : Finset String :=
  ((m.map Prod.snd).flatten).toFinset

/-- Every path dependency readable from some manifest lies in the pool. -/
theorem depsOf_mem_targets : ∀ (m : Manifests) (d x : String),
    x ∈ depsOf m d → x ∈ manifestTargets m
  | [], d, x, hx => by simp [depsOf, List.lookup] at hx
  | (k, vs) :: t, d, x, hx => by
    simp only [manifestTargets, List.map_cons, List.flatten_cons, List.mem_toFinset,
      List.mem_append]
    by_cases hdk : d = k
    · subst hdk
      simp only [depsOf, List.lookup, beq_self_eq_true] at hx
      exact Or.inl hx
    · have heq : depsOf ((k, vs) :: t) d = depsOf t d := by
        simp [depsOf, List.lookup, beq_false_of_ne hdk]
      rw [heq] at hx
      have := depsOf_mem_targets t d x hx
      simp only [manifestTargets, List.mem_toFinset] at this
      exact Or.inr this

/-- The worklist loop of _find_all_path_dependencies (_resolve_project.py).
to_search.pop() removes the last list element, so the model stack keeps that
element at its head; extending to_search with the dependencies of a newly
visited directory therefore pushes them reversed. The visited set is kept as
a list, extended only when the popped directory is new. Termination: popping
a visited directory shortens the stack, popping a new one shrinks the set of
reachable-but-unvisited directories. -/
def findAllGo (m : Manifests) (visited : List String) (stack : List String) : List String :=
  match stack with
  | [] => visited
  | d :: rest =>
    if d ∈ visited then findAllGo m visited rest
    else findAllGo m (d :: visited) ((depsOf m d).reverse ++ rest)
  termination_by
    (((stack.toFinset ∪ manifestTargets m) \ visited.toFinset).card, stack.length)
  decreasing_by
  · have hc : ((rest.toFinset ∪ manifestTargets m) \ visited.toFinset)
        = (((d :: rest).toFinset ∪ manifestTargets m) \ visited.toFinset) := by
      simp only [List.toFinset_cons, Finset.insert_union]
      rw [Finset.insert_sdiff_of_mem]
      simpa using (by assumption : d ∈ visited)
    rw [hc]
    exact Prod.Lex.right _ (by simp)
  · apply Prod.Lex.left
    apply Finset.card_lt_card
    have hnv : ¬ d ∈ visited := by assumption
    have hsub : (((depsOf m d).reverse ++ rest).toFinset ∪ manifestTargets m)
        \ (d :: visited).toFinset
        ⊆ (((d :: rest).toFinset ∪ manifestTargets m) \ visited.toFinset) := by
      intro x hx
      simp only [Finset.mem_sdiff, Finset.mem_union, List.mem_toFinset, List.mem_append,
        List.mem_reverse, List.mem_cons, not_or] at hx ⊢
      obtain ⟨hin, _, hnvx⟩ := hx
      refine ⟨?_, hnvx⟩
      rcases hin with (hdep | hrest) | ht
      · exact Or.inr (depsOf_mem_targets m d x hdep)
      · exact Or.inl (Or.inr hrest)
      · exact Or.inr ht
    refine (Finset.ssubset_iff_of_subset hsub).mpr ⟨d, ?_, ?_⟩
    · simp only [Finset.mem_sdiff, Finset.mem_union, List.mem_toFinset, List.mem_cons]
      exact ⟨Or.inl (Or.inl trivial), by simpa using hnv⟩
    · simp only [Finset.mem_sdiff, Finset.mem_union, List.mem_toFinset, List.mem_cons, not_or]
      intro h
      exact h.2.1 trivial

/-- _find_all_path_dependencies (_resolve_project.py): returns [] at once for
an empty immediate dependency list, otherwise runs the worklist loop starting
from a copy of the immediate dependencies (reversed here because the model
stack head is the python list tail) and returns the visited set sorted. -/
def _find_all_path_dependencies (m : Manifests) (immediate : List String) : List String :=
  match immediate with
  | [] => []
  | _ => List.insertionSort (fun a b => a ≤ b) (findAllGo m [] immediate.reverse)

/-- Reachability from a list of root directories by repeatedly following the
path dependencies listed in the manifest of an already reached directory. -/
inductive ReachesFrom (m : Manifests) (roots : List String) : String → Prop where
  | base {x} : x ∈ roots → ReachesFrom m roots x
  | step {x y} : ReachesFrom m roots y → x ∈ depsOf m y → ReachesFrom m roots x

/-- Specification of which files _get_files_in_dirs collects under a root
directory with path p and children cs: a file reached by descending only
through child directories whose name is not excluded and whose path is not
excluded. -/
inductive CollectedFile (names : List String) (xpaths : List FsPath) :
    FsPath → List FSEntry → FsPath → ℚ → Prop where
  | here {p cs n m} : FSEntry.file n m ∈ cs →
      CollectedFile names xpaths p cs (p ++ [n]) m
  | deeper {p cs d ccs q m} : FSEntry.dir d ccs ∈ cs → d ∉ names → (p ++ [d]) ∉ xpaths →
      CollectedFile names xpaths (p ++ [d]) ccs q m →
      CollectedFile names xpaths p cs q m

mutual

/-- Two filesystem entries that agree everywhere outside directories whose
name is excluded: equal files, directories with an excluded name and
arbitrary contents, or directories with a kept name and pointwise agreeing
children. -/
inductive EntryAgree (names : List String) : FSEntry → FSEntry → Prop where
  | file (n : String) (mt : ℚ) : EntryAgree names (.file n mt) (.file n mt)
  | dirExcluded (n : String) (cs cs' : List FSEntry) : n ∈ names →
      EntryAgree names (.dir n cs) (.dir n cs')
  | dirKept (n : String) (cs cs' : List FSEntry) : n ∉ names →
      EntriesAgree names cs cs' → EntryAgree names (.dir n cs) (.dir n cs')

/-- Pointwise agreement of two child lists. -/
inductive EntriesAgree (names : List String) : List FSEntry → List FSEntry → Prop where
  | nil : EntriesAgree names [] []
  | cons {e e' es es'} : EntryAgree names e e' → EntriesAgree names es es' →
      EntriesAgree names (e :: es) (e' :: es')

end

/-- Modelled from the spec: the short-circuit evaluation of an ordered list of
checks, each a pass flag with the reason reported when it is the first to
fail; none means every check passed. -/
def firstFail : List (Bool × String) → Option String
  | [] => none
  | (true, _) :: rest => firstFail rest
  | (false, r) :: _ => some r

/-- The outcome the oracle reports for a first failing check, or fresh. -/
def renderCheck : Option String → PyResult UpToDateResult
  | none => .ok .fresh
  | some r => .ok (.stale r)

/-- Whether an isclose call returned True (an exception counts as not
close; it cannot arise for a numeric build_mtime). -/
def isCloseOk : PyResult Bool → Bool
  | .ok b => b
  | .exc _ => false

/-- Modelled from the spec: the ordered check list of the freshness decision
sequence, with the pass flag of each check computed from the same world the
oracle reads and the reason string the oracle reports when that check is the
first to fail. Checks behind a failed one carry an arbitrary (true) flag, as
short-circuit evaluation never reads them. -/
def specCheckList (force_rebuild spec_found : Bool)
    (installed_root : Option (FsPath × Option FSEntry)) (project_dir : DirOnDisk)
    (all_path_dependencies : List DirOnDisk) (names : List String)
    (build_status : Option BuildStatus) (settings_args : List String) :
    List (Bool × String) :=
  let im? := installed_root.bind (fun root => _get_installed_package_mtime names root)
  [(!force_rebuild, "forcing rebuild"),
   (spec_found, "package not already installed"),
   (installed_root.isSome, "could not find installed package root"),
   (im?.isSome, "could not get installed package mtime"),
   ((match installed_root, im? with
     | some root, some im =>
        _package_is_up_to_date project_dir all_path_dependencies root im names
     | _, _ => true), "package is out of date"),
   (build_status.isSome, "no build status found"),
   ((match build_status with
     | some st => st.source_path == pathStr project_dir.1
     | none => true), "source path in build status does not match the project dir"),
   ((match build_status, im? with
     | some st, some im => isCloseOk (mathIsClose st.build_mtime im)
     | _, _ => true), "installed package mtime does not match build status mtime"),
   ((match build_status with
     | some st => Json.beq st.maturin_args (argsJson settings_args)
     | none => true), "current maturin args do not match the previous build")]

/-! ## Helper lemmas -/

/-- isclose is reflexive: a timestamp is close to itself. -/
theorem isclose_self (a : ℚ) : isclose a a = true := by
  simp only [isclose, decide_eq_true_eq, sub_self, abs_zero]
  exact le_max_of_le_right le_rfl

/-- firstFail returns none exactly when every check passes. -/
theorem firstFail_eq_none_iff : ∀ l : List (Bool × String),
    firstFail l = none ↔ ∀ e ∈ l, e.1 = true
  | [] => by simp [firstFail]
  | (b, r) :: rest => by
    cases b with
    | true => simpa [firstFail] using firstFail_eq_none_iff rest
    | false => simp [firstFail]

/-- A contended acquire loop against a static holder times out, whatever the
fuel. -/
theorem acquire_loop_contended : ∀ fuel : ℕ,
    acquire_loop false true fuel = .error .timeoutError
  | 0 => rfl
  | n + 1 => by
    rw [acquire_loop]
    simpa [fcntl_try_acquire] using acquire_loop_contended n

/-- On a filesystem without flock the loop raises LockError on the first
try. -/
theorem acquire_loop_unsupported (oh : Bool) : ∀ fuel : ℕ,
    acquire_loop true oh fuel = .error .lockError := by
  intro fuel
  cases fuel <;> simp [acquire_loop, fcntl_try_acquire]

/-- An uncontended acquire succeeds on the first try. -/
theorem acquire_loop_free : ∀ fuel : ℕ, acquire_loop false false fuel = .ok true := by
  intro fuel
  cases fuel <;> simp [acquire_loop, fcntl_try_acquire]

/-- A process whose freshness check comes back fresh leaves the world alone
and performs no build, so a run of n such processes builds nothing. -/
theorem run_serialized_fresh {W : Type} (check : W → UpToDateResult) (build : W → W) :
    ∀ (n : ℕ) (w : W), check w = .fresh → run_serialized check build n w = (w, 0)
  | 0, _, _ => rfl
  | n + 1, w, h => by
    rw [run_serialized]
    simp only [rebuild_project_locked, h]
    rw [run_serialized_fresh check build n w h]
    simp

/-- The freshness oracle equals the short-circuit evaluation of the ordered
check list: it runs the checks in that order, stops at the first failure with
that check's reason, and is fresh only when all pass. Stated for any cache
whose record for the project parses without an exception and any cached
status whose build_mtime is numeric (a non-numeric one makes both the code
and isclose raise). -/
theorem oracle_eq_firstFail
    (force_rebuild spec_found : Bool) (installed_root : Option (FsPath × Option FSEntry))
    (project_dir : DirOnDisk) (all_path_dependencies : List DirOnDisk)
    (names : List String) (cache : Cache) (settings_args : List String)
    (st? : Option BuildStatus)
    (hcache : get_build_status cache (pathStr project_dir.1) = .ok st?)
    (htyped : ∀ st, st? = some st → ∃ q, st.build_mtime = Json.num q) :
    _get_spec_for_up_to_date_package force_rebuild spec_found installed_root project_dir
        all_path_dependencies names cache settings_args
      = renderCheck (firstFail (specCheckList force_rebuild spec_found installed_root
          project_dir all_path_dependencies names st? settings_args)) := by
  cases force_rebuild with
  | true => rfl
  | false =>
  cases spec_found with
  | false => rfl
  | true =>
  cases installed_root with
  | none => rfl
  | some root =>
  cases him : _get_installed_package_mtime names root with
  | none =>
    simp [_get_spec_for_up_to_date_package, specCheckList, firstFail, renderCheck, him]
  | some im =>
  cases hup : _package_is_up_to_date project_dir all_path_dependencies root im names with
  | false =>
    simp [_get_spec_for_up_to_date_package, specCheckList, firstFail, renderCheck, him, hup]
  | true =>
  cases st? with
  | none =>
    simp [_get_spec_for_up_to_date_package, specCheckList, firstFail, renderCheck,
      him, hup, hcache]
  | some st =>
  obtain ⟨q, hq⟩ := htyped st rfl
  by_cases hsp : st.source_path = pathStr project_dir.1
  · cases hc : isclose q im with
    | false =>
      simp [_get_spec_for_up_to_date_package, specCheckList, firstFail, renderCheck,
        him, hup, hcache, hsp, hq, hc, mathIsClose, isCloseOk]
    | true =>
      cases hb : Json.beq st.maturin_args (argsJson settings_args) with
      | false =>
        simp [_get_spec_for_up_to_date_package, specCheckList, firstFail, renderCheck,
          him, hup, hcache, hsp, hq, hc, hb, mathIsClose, isCloseOk]
      | true =>
        simp [_get_spec_for_up_to_date_package, specCheckList, firstFail, renderCheck,
          him, hup, hcache, hsp, hq, hc, hb, mathIsClose, isCloseOk]
  · have hbeq : (st.source_path == pathStr project_dir.1) = false :=
      beq_eq_false_iff_ne.mpr hsp
    simp [_get_spec_for_up_to_date_package, specCheckList, firstFail, renderCheck,
      him, hup, hcache, hsp, hq, mathIsClose, isCloseOk, hbeq]

/-- The foldl of min lands on a member of the scanned values. -/
theorem foldl_min_mem (xs : List ℚ) : ∀ x : ℚ, xs.foldl min x ∈ x :: xs := by
  induction xs with
  | nil => intro x; simp
  | cons y ys ih =>
    intro x
    show List.foldl min (min x y) ys ∈ x :: y :: ys
    rcases List.mem_cons.mp (ih (min x y)) with h1 | h1
    · rw [h1]
      rcases min_choice x y with h2 | h2 <;> rw [h2]
      · exact List.mem_cons_self _ _
      · exact List.mem_cons_of_mem _ (List.mem_cons_self _ _)
    · exact List.mem_cons_of_mem _ (List.mem_cons_of_mem _ h1)

/-- The foldl of min is below every scanned value. -/
theorem foldl_min_le (xs : List ℚ) : ∀ x y : ℚ, y ∈ x :: xs → xs.foldl min x ≤ y := by
  induction xs with
  | nil => intro x y hy; simp_all
  | cons z zs ih =>
    intro x y hy
    show List.foldl min (min x z) zs ≤ y
    have hhead : zs.foldl min (min x z) ≤ min x z :=
      ih (min x z) (min x z) (List.mem_cons_self _ _)
    rcases List.mem_cons.mp hy with rfl | hy1
    · exact le_trans hhead (min_le_left _ _)
    rcases List.mem_cons.mp hy1 with rfl | hy2
    · exact le_trans hhead (min_le_right _ _)
    · exact ih (min x z) y (List.mem_cons_of_mem _ hy2)

/-- python min over a nonempty sequence returns exactly the least member. -/
theorem pyMin_eq_some_iff (l : List ℚ) (q : ℚ) :
    pyMin l = some q ↔ q ∈ l ∧ ∀ x ∈ l, q ≤ x := by
  cases l with
  | nil => simp [pyMin]
  | cons x xs =>
    simp only [pyMin, Option.some.injEq]
    constructor
    · rintro rfl
      exact ⟨foldl_min_mem xs x, fun y hy => foldl_min_le xs x y hy⟩
    · rintro ⟨hm, hle⟩
      exact le_antisymm (foldl_min_le xs x q hm) (hle _ (foldl_min_mem xs x))

/-- The foldl of max lands on a member of the scanned values. -/
theorem foldl_max_mem (xs : List ℚ) : ∀ x : ℚ, xs.foldl max x ∈ x :: xs := by
  induction xs with
  | nil => intro x; simp
  | cons y ys ih =>
    intro x
    show List.foldl max (max x y) ys ∈ x :: y :: ys
    rcases List.mem_cons.mp (ih (max x y)) with h1 | h1
    · rw [h1]
      rcases max_choice x y with h2 | h2 <;> rw [h2]
      · exact List.mem_cons_self _ _
      · exact List.mem_cons_of_mem _ (List.mem_cons_self _ _)
    · exact List.mem_cons_of_mem _ (List.mem_cons_of_mem _ h1)

/-- The foldl of max is above every scanned value. -/
theorem le_foldl_max (xs : List ℚ) : ∀ x y : ℚ, y ∈ x :: xs → y ≤ xs.foldl max x := by
  induction xs with
  | nil => intro x y hy; simp_all
  | cons z zs ih =>
    intro x y hy
    show y ≤ List.foldl max (max x z) zs
    have hhead : max x z ≤ zs.foldl max (max x z) :=
      ih (max x z) (max x z) (List.mem_cons_self _ _)
    rcases List.mem_cons.mp hy with rfl | hy1
    · exact le_trans (le_max_left _ _) hhead
    rcases List.mem_cons.mp hy1 with rfl | hy2
    · exact le_trans (le_max_right _ _) hhead
    · exact ih (max x z) y (List.mem_cons_of_mem _ hy2)

/-- python max over a nonempty sequence returns exactly the greatest member. -/
theorem pyMax_eq_some_iff (l : List ℚ) (q : ℚ) :
    pyMax l = some q ↔ q ∈ l ∧ ∀ x ∈ l, x ≤ q := by
  cases l with
  | nil => simp [pyMax]
  | cons x xs =>
    simp only [pyMax, Option.some.injEq]
    constructor
    · rintro rfl
      exact ⟨foldl_max_mem xs x, fun y hy => le_foldl_max xs x y hy⟩
    · rintro ⟨hm, hle⟩
      exact le_antisymm (hle _ (foldl_max_mem xs x)) (le_foldl_max xs x q hm)

/-- Weakening: a file collected under a child list is collected when the list
grows by one more child. -/
theorem CollectedFile.cons {names : List String} {xpaths : List FsPath} {p : FsPath}
    {cs : List FSEntry} {q : FsPath} {mt : ℚ} (e : FSEntry)
    (h : CollectedFile names xpaths p cs q mt) :
    CollectedFile names xpaths p (e :: cs) q mt := by
  cases h with
  | here hm => exact .here (List.mem_cons_of_mem _ hm)
  | deeper hm h1 h2 hc => exact .deeper (List.mem_cons_of_mem _ hm) h1 h2 hc

/-- No file is collected under an empty child list. -/
theorem collected_nil_elim {names : List String} {xpaths : List FsPath} {p : FsPath}
    {q : FsPath} {mt : ℚ} : ¬ CollectedFile names xpaths p [] q mt := by
  intro h
  cases h with
  | here hm => exact absurd hm (List.not_mem_nil _)
  | deeper hm _ _ _ => exact absurd hm (List.not_mem_nil _)

/-- Inversion: a file collected under e :: cs is collected under cs, or comes
from e itself, as a direct file or through a descendible directory. -/
theorem collected_cons_inv {names : List String} {xpaths : List FsPath} {p : FsPath}
    {e : FSEntry} {cs : List FSEntry} {q : FsPath} {mt : ℚ}
    (h : CollectedFile names xpaths p (e :: cs) q mt) :
    CollectedFile names xpaths p cs q mt
      ∨ (∃ n m, e = .file n m ∧ q = p ++ [n] ∧ mt = m)
      ∨ (∃ n ccs, e = .dir n ccs ∧ n ∉ names ∧ (p ++ [n]) ∉ xpaths
          ∧ CollectedFile names xpaths (p ++ [n]) ccs q mt) := by
  cases h with
  | here hm =>
    rcases List.mem_cons.mp hm with heq | hm2
    · exact Or.inr (Or.inl ⟨_, _, heq.symm, rfl, rfl⟩)
    · exact Or.inl (.here hm2)
  | deeper hm h1 h2 hc =>
    rcases List.mem_cons.mp hm with heq | hm2
    · exact Or.inr (Or.inr ⟨_, _, heq.symm, h1, h2, hc⟩)
    · exact Or.inl (.deeper hm2 h1 h2 hc)

/-- The files _get_files_in_dirs collects under a directory are exactly those
described by CollectedFile: reachable by descending only through
non-excluded child directories. -/
theorem mem_filesOfList_iff (names : List String) (xpaths : List FsPath) :
    ∀ (cs : List FSEntry) (p q : FsPath) (mt : ℚ),
      (q, mt) ∈ filesOfList names xpaths p cs ↔ CollectedFile names xpaths p cs q mt := by
  suffices H : ∀ (k : ℕ) (cs : List FSEntry), sizeOf cs ≤ k → ∀ (p q : FsPath) (mt : ℚ),
      ((q, mt) ∈ filesOfList names xpaths p cs ↔ CollectedFile names xpaths p cs q mt) by
    exact fun cs p q mt => H (sizeOf cs) cs le_rfl p q mt
  intro k
  induction k with
  | zero =>
    intro cs hcs
    exfalso
    cases cs <;> simp_all
  | succ k ih =>
    intro cs hcs p q mt
    match cs with
    | [] =>
      constructor
      · intro h; simp [filesOfList] at h
      · intro h
        exact absurd h collected_nil_elim
    | .file n m :: rest =>
      have hrest : sizeOf rest ≤ k := by
        simp only [List.cons.sizeOf_spec, FSEntry.file.sizeOf_spec] at hcs
        omega
      simp only [filesOfList, filesOfEntry, List.mem_append, List.mem_singleton,
        Prod.mk.injEq]
      constructor
      · rintro (⟨rfl, rfl⟩ | hm)
        · exact .here (List.mem_cons_self _ _)
        · exact CollectedFile.cons _ ((ih rest hrest p q mt).mp hm)
      · intro h
        rcases collected_cons_inv h with htail | ⟨n2, m2, heq, hq, hmt⟩ | ⟨d, ccs2, heq, _, _, _⟩
        · exact Or.inr ((ih rest hrest p q mt).mpr htail)
        · injection heq with hn hm2
          subst hn; subst hm2
          exact Or.inl ⟨hq, hmt⟩
        · exact FSEntry.noConfusion heq
    | .dir n ccs :: rest =>
      have hrest : sizeOf rest ≤ k := by
        simp only [List.cons.sizeOf_spec, FSEntry.dir.sizeOf_spec] at hcs
        omega
      have hccs : sizeOf ccs ≤ k := by
        simp only [List.cons.sizeOf_spec, FSEntry.dir.sizeOf_spec] at hcs
        omega
      simp only [filesOfList, filesOfEntry, List.mem_append]
      by_cases hcond : n ∉ names ∧ (p ++ [n]) ∉ xpaths
      · rw [if_pos hcond]
        constructor
        · rintro (hm | hm)
          · exact .deeper (List.mem_cons_self _ _) hcond.1 hcond.2
              ((ih ccs hccs (p ++ [n]) q mt).mp hm)
          · exact CollectedFile.cons _ ((ih rest hrest p q mt).mp hm)
        · intro h
          rcases collected_cons_inv h with
            htail | ⟨n2, m2, heq, _, _⟩ | ⟨d, ccs2, heq, h1, h2, hc⟩
          · exact Or.inr ((ih rest hrest p q mt).mpr htail)
          · exact FSEntry.noConfusion heq
          · injection heq with hn hcc
            subst hn; subst hcc
            exact Or.inl ((ih ccs hccs (p ++ [n]) q mt).mpr hc)
      · rw [if_neg hcond]
        simp only [List.not_mem_nil, false_or]
        constructor
        · intro hm
          exact CollectedFile.cons _ ((ih rest hrest p q mt).mp hm)
        · intro h
          rcases collected_cons_inv h with
            htail | ⟨n2, m2, heq, _, _⟩ | ⟨d, ccs2, heq, h1, h2, hc⟩
          · exact (ih rest hrest p q mt).mpr htail
          · exact FSEntry.noConfusion heq
          · injection heq with hn hcc
            subst hn; subst hcc
            exact absurd ⟨h1, h2⟩ hcond

/-! ## C1 -/

/-- C1: the installed mtime of a single-file artifact is its own mtime; the
installed mtime of a directory artifact is exactly the minimum mtime over the
files recursively collected under it, where the collected files are exactly
those reached without entering a directory with an excluded name (or an
excluded path); the project mtime is exactly the maximum mtime over the files
collected under the project directory and all path dependencies, with the
installed artifact directory excluded when it is a directory; the package is
judged up to date iff installed mtime is greater or equal project mtime; and
when the mtimes are computable and the comparison fails, the oracle reports
the stale reason of the out-of-date check. -/
theorem installed_and_project_mtime_rule :
    (∀ (names : List String) (p : FsPath) (n : String) (mt : ℚ),
        _get_installed_package_mtime names (p, some (.file n mt)) = some mt)
      ∧ (∀ (names : List String) (p : FsPath) (dn : String) (cs : List FSEntry) (q : ℚ),
          _get_installed_package_mtime names (p, some (.dir dn cs)) = some q
            ↔ ((∃ f ∈ filesOfList names [] p cs, f.2 = q)
                ∧ ∀ f ∈ filesOfList names [] p cs, q ≤ f.2))
      ∧ (∀ (names : List String) (xpaths : List FsPath) (p : FsPath) (cs : List FSEntry)
            (q : FsPath) (mt : ℚ),
          (q, mt) ∈ filesOfList names xpaths p cs ↔ CollectedFile names xpaths p cs q mt)
      ∧ (∀ (ppath : FsPath) (pcs : List FSEntry) (deps : List (FsPath × List FSEntry))
            (iroot : FsPath × Option FSEntry) (names : List String) (q : ℚ),
          _get_project_mtime (ppath, some pcs) (deps.map (fun d => (d.1, some d.2)))
              iroot names = some q
            ↔ ((∃ f ∈ getFilesInDirs names
                  (match iroot.2 with | some (.dir _ _) => [iroot.1] | _ => [])
                  ((ppath, pcs) :: deps), f.2 = q)
               ∧ ∀ f ∈ getFilesInDirs names
                  (match iroot.2 with | some (.dir _ _) => [iroot.1] | _ => [])
                  ((ppath, pcs) :: deps), f.2 ≤ q))
      ∧ (∀ (project_dir : DirOnDisk) (deps : List DirOnDisk)
            (iroot : FsPath × Option FSEntry) (names : List String) (im pm : ℚ),
          _get_project_mtime project_dir deps iroot names = some pm →
          (_package_is_up_to_date project_dir deps iroot im names = true ↔ pm ≤ im))
      ∧ (∀ (root : FsPath × Option FSEntry) (project_dir : DirOnDisk)
            (deps : List DirOnDisk) (names : List String) (cache : Cache)
            (settings_args : List String) (im : ℚ),
          _get_installed_package_mtime names root = some im →
          _package_is_up_to_date project_dir deps root im names = false →
          _get_spec_for_up_to_date_package false true (some root) project_dir deps names
              cache settings_args
            = .ok (.stale "package is out of date")) := by
  refine ⟨fun names p n mt => rfl,
    ?_, fun names xpaths p cs q mt => mem_filesOfList_iff names xpaths cs p q mt,
    ?_, ?_, ?_⟩
  · intro names p dn cs q
    show pyMin ((filesOfList names [] p cs).map (fun f => f.2)) = some q ↔ _
    rw [pyMin_eq_some_iff]
    constructor
    · rintro ⟨hm, hle⟩
      obtain ⟨f, hf, hfq⟩ := List.mem_map.mp hm
      exact ⟨⟨f, hf, hfq⟩, fun g hg => hle _ (List.mem_map.mpr ⟨g, hg, rfl⟩)⟩
    · rintro ⟨⟨f, hf, hfq⟩, hle⟩
      refine ⟨List.mem_map.mpr ⟨f, hf, hfq⟩, ?_⟩
      intro x hx
      obtain ⟨g, hg, rfl⟩ := List.mem_map.mp hx
      exact hle g hg
  · intro ppath pcs deps iroot names q
    show _get_project_mtime (ppath, some pcs) (deps.map (fun d => (d.1, some d.2)))
        iroot names = some q ↔ _
    rw [_get_project_mtime]
    have hall : ((ppath, some pcs) :: deps.map (fun d => (d.1, some d.2))).all
        (fun r => r.2.isSome) = true := by
      simp [List.all_map, Function.comp]
      rintro a b x x1 hx rfl rfl
      rfl
    have hfun : ((fun r : FsPath × Option (List FSEntry) => (r.1, r.2.getD []))
        ∘ (fun d : FsPath × List FSEntry => (d.1, some d.2))) = id := by
      funext d
      simp
    have hmap : ((ppath, some pcs) :: deps.map (fun d => (d.1, some d.2))).map
        (fun r => (r.1, r.2.getD [])) = (ppath, pcs) :: deps := by
      simp [List.map_map, hfun]
    rw [if_pos hall, hmap, pyMax_eq_some_iff]
    constructor
    · rintro ⟨hm, hle⟩
      obtain ⟨f, hf, hfq⟩ := List.mem_map.mp hm
      exact ⟨⟨f, hf, hfq⟩, fun g hg => hle _ (List.mem_map.mpr ⟨g, hg, rfl⟩)⟩
    · rintro ⟨⟨f, hf, hfq⟩, hle⟩
      refine ⟨List.mem_map.mpr ⟨f, hf, hfq⟩, ?_⟩
      intro x hx
      obtain ⟨g, hg, rfl⟩ := List.mem_map.mp hx
      exact hle g hg
  · intro project_dir deps iroot names im pm h
    simp [_package_is_up_to_date, h, ge_iff_le]
  · intro root project_dir deps names cache settings_args im him hup
    simp [_get_spec_for_up_to_date_package, him, hup]

/-- Witness for C1: a project file newer than the installed artifact makes
the up-to-date comparison fail and the oracle stale with the out-of-date
reason. -/
theorem installed_and_project_mtime_rule_witness :
    (_package_is_up_to_date (["proj"], some [.file "a" 2]) []
        (["site"], some (.file "x" 1)) 1 [] = true ↔ (2 : ℚ) ≤ 1)
      ∧ _get_spec_for_up_to_date_package false true (some (["site"], some (.file "x" 1)))
          (["proj"], some [.file "a" 2]) [] [] [] []
        = .ok (.stale "package is out of date") :=
  ⟨installed_and_project_mtime_rule.2.2.2.2.1 (["proj"], some [.file "a" 2]) []
      (["site"], some (.file "x" 1)) [] 1 2 rfl,
    installed_and_project_mtime_rule.2.2.2.2.2 (["site"], some (.file "x" 1))
      (["proj"], some [.file "a" 2]) [] [] [] [] 1 rfl (by decide)⟩

/-- Agreement outside excluded directory names makes _get_files_in_dirs
collect the same files: the scan never enters a directory with an excluded
name, so its contents are irrelevant. -/
theorem filesOfList_agree (names : List String) (xpaths : List FsPath) :
    ∀ (cs cs' : List FSEntry), EntriesAgree names cs cs' →
      ∀ p, filesOfList names xpaths p cs = filesOfList names xpaths p cs' := by
  suffices H : ∀ (k : ℕ) (cs : List FSEntry), sizeOf cs ≤ k →
      ∀ cs', EntriesAgree names cs cs' →
      ∀ p, filesOfList names xpaths p cs = filesOfList names xpaths p cs' by
    exact fun cs cs' hag p => H (sizeOf cs) cs le_rfl cs' hag p
  intro k
  induction k with
  | zero =>
    intro cs hcs
    exfalso
    cases cs <;> simp_all
  | succ k ih =>
    intro cs hcs cs' hag p
    cases hag with
    | nil => rfl
    | cons ha has =>
      rename_i e e' es es'
      cases ha with
      | file n mt =>
        have hes : sizeOf es ≤ k := by
          simp only [List.cons.sizeOf_spec, FSEntry.file.sizeOf_spec] at hcs
          omega
        simp only [filesOfList]
        rw [ih es hes es' has p]
      | dirExcluded n cs1 cs2 hn =>
        have hes : sizeOf es ≤ k := by
          simp only [List.cons.sizeOf_spec, FSEntry.dir.sizeOf_spec] at hcs
          omega
        simp only [filesOfList, filesOfEntry]
        rw [if_neg (fun hc => hc.1 hn), if_neg (fun hc => hc.1 hn), ih es hes es' has p]
      | dirKept n cs1 cs2 hn hck =>
        have hes : sizeOf es ≤ k := by
          simp only [List.cons.sizeOf_spec, FSEntry.dir.sizeOf_spec] at hcs
          omega
        have hcs1 : sizeOf cs1 ≤ k := by
          simp only [List.cons.sizeOf_spec, FSEntry.dir.sizeOf_spec] at hcs
          omega
        simp only [filesOfList, filesOfEntry]
        by_cases hx : (p ++ [n]) ∈ xpaths
        · rw [if_neg (fun hc => hc.2 hx), if_neg (fun hc => hc.2 hx), ih es hes es' has p]
        · rw [if_pos ⟨hn, hx⟩, if_pos ⟨hn, hx⟩, ih cs1 hcs1 cs2 hck (p ++ [n]),
            ih es hes es' has p]

/-- The path of every collected file extends the root path by a nonempty
suffix whose directory components all avoid the excluded names. -/
theorem collected_path_shape {names : List String} {xpaths : List FsPath} {p : FsPath}
    {cs : List FSEntry} {q : FsPath} {mt : ℚ}
    (h : CollectedFile names xpaths p cs q mt) :
    ∃ sfx, q = p ++ sfx ∧ sfx ≠ [] ∧ ∀ d ∈ sfx.dropLast, d ∉ names := by
  induction h with
  | here hm => exact ⟨[_], rfl, by simp, by simp⟩
  | @deeper p2 cs2 d ccs q2 m2 hm h1 h2 hc ih =>
    obtain ⟨sfx, rfl, hne, hdl⟩ := ih
    refine ⟨d :: sfx, by simp, by simp, ?_⟩
    intro x hx
    rw [List.dropLast_cons_of_ne_nil hne] at hx
    rcases List.mem_cons.mp hx with rfl | hx2
    · exact h1
    · exact hdl x hx2

/-! ## C9 -/

/-- C9: a directory whose name is excluded is skipped outright by the file
scan; every collected file path descends only through non-excluded directory
names; and two project trees that agree outside excluded-name directories (at
any depth, with arbitrary contents inside them) have the same project mtime,
so a file inside an excluded directory never affects it, whatever its
mtime. -/
theorem excluded_dir_files_never_contribute :
    (∀ (names : List String) (xpaths : List FsPath) (p : FsPath) (n : String)
        (cs rest : List FSEntry), n ∈ names →
        filesOfList names xpaths p (.dir n cs :: rest) = filesOfList names xpaths p rest)
      ∧ (∀ (names : List String) (xpaths : List FsPath) (p : FsPath) (cs : List FSEntry)
          (q : FsPath) (mt : ℚ), (q, mt) ∈ filesOfList names xpaths p cs →
          ∃ sfx, q = p ++ sfx ∧ sfx ≠ [] ∧ ∀ d ∈ sfx.dropLast, d ∉ names)
      ∧ (∀ (ppath : FsPath) (cs cs' : List FSEntry) (deps : List DirOnDisk)
          (iroot : FsPath × Option FSEntry) (names : List String),
          EntriesAgree names cs cs' →
          _get_project_mtime (ppath, some cs) deps iroot names
            = _get_project_mtime (ppath, some cs') deps iroot names) := by
  refine ⟨?_, ?_, ?_⟩
  · intro names xpaths p n cs rest hn
    simp only [filesOfList, filesOfEntry]
    rw [if_neg (fun hc => hc.1 hn)]
    simp
  · intro names xpaths p cs q mt h
    exact collected_path_shape ((mem_filesOfList_iff names xpaths cs p q mt).mp h)
  · intro ppath cs cs' deps iroot names hag
    simp only [_get_project_mtime, List.all_cons, Option.isSome_some, Bool.true_and,
      List.map_cons, Option.getD_some, getFilesInDirs]
    rw [filesOfList_agree names _ cs cs' hag ppath]

/-- Witness for C9: replacing the contents of an excluded pycache directory,
including a newest file, leaves the project mtime unchanged. -/
theorem excluded_dir_files_never_contribute_witness :
    _get_project_mtime (["proj"], some [.dir "__pycache__" [], .file "lib.rs" 5]) []
        (["site"], none) ["__pycache__"]
      = _get_project_mtime
          (["proj"], some [.dir "__pycache__" [.file "cache.pyc" 100], .file "lib.rs" 5]) []
          (["site"], none) ["__pycache__"] :=
  excluded_dir_files_never_contribute.2.2 ["proj"]
    [.dir "__pycache__" [], .file "lib.rs" 5]
    [.dir "__pycache__" [.file "cache.pyc" 100], .file "lib.rs" 5]
    [] (["site"], none) ["__pycache__"]
    (.cons (.dirExcluded _ _ _ (by simp)) (.cons (.file _ _) .nil))

/-! ## C8 -/

/-- Reachability is preserved when every root of the first list is reachable
from the second. -/
theorem reaches_mono {m : Manifests} {roots roots' : List String} {x : String}
    (h : ReachesFrom m roots x) (hsub : ∀ y ∈ roots, ReachesFrom m roots' y) :
    ReachesFrom m roots' x := by
  induction h with
  | base hx => exact hsub _ hx
  | step _ hdep ih => exact .step ih hdep

/-- Nothing is reachable from no roots. -/
theorem not_reaches_nil {m : Manifests} {x : String} : ¬ ReachesFrom m [] x := by
  intro h
  induction h with
  | base hx => simp at hx
  | step _ _ ih => exact ih

/-- The visited set only grows. -/
theorem findAllGo_sub_visited (m : Manifests) : ∀ (visited stack : List String) (x : String),
    x ∈ visited → x ∈ findAllGo m visited stack := by
  intro visited stack
  induction visited, stack using findAllGo.induct m with
  | case1 visited => intro x hx; rw [findAllGo]; exact hx
  | case2 visited d rest hd ih =>
    intro x hx
    rw [findAllGo, if_pos hd]
    exact ih x hx
  | case3 visited d rest hd ih =>
    intro x hx
    rw [findAllGo, if_neg hd]
    exact ih x (List.mem_cons_of_mem _ hx)

/-- Every directory still on the stack ends up in the result. -/
theorem findAllGo_sub_stack (m : Manifests) : ∀ (visited stack : List String) (x : String),
    x ∈ stack → x ∈ findAllGo m visited stack := by
  intro visited stack
  induction visited, stack using findAllGo.induct m with
  | case1 visited => intro x hx; simp at hx
  | case2 visited d rest hd ih =>
    intro x hx
    rw [findAllGo, if_pos hd]
    rcases List.mem_cons.mp hx with rfl | hx2
    · exact findAllGo_sub_visited m visited rest x hd
    · exact ih x hx2
  | case3 visited d rest hd ih =>
    intro x hx
    rw [findAllGo, if_neg hd]
    rcases List.mem_cons.mp hx with rfl | hx2
    · exact findAllGo_sub_visited m (x :: visited) _ x (List.mem_cons_self _ _)
    · exact ih x (List.mem_append.mpr (Or.inr hx2))

/-- With every dependency of a visited directory accounted for in the visited
set or the stack, the result is closed under manifest dependencies. -/
theorem findAllGo_closed (m : Manifests) : ∀ (visited stack : List String),
    (∀ y ∈ visited, ∀ z ∈ depsOf m y, z ∈ visited ∨ z ∈ stack) →
    ∀ y ∈ findAllGo m visited stack, ∀ z ∈ depsOf m y,
      z ∈ findAllGo m visited stack := by
  intro visited stack
  induction visited, stack using findAllGo.induct m with
  | case1 visited =>
    intro hinv y hy z hz
    rw [findAllGo] at hy ⊢
    rcases hinv y hy z hz with h | h
    · exact h
    · simp at h
  | case2 visited d rest hd ih =>
    intro hinv
    rw [findAllGo, if_pos hd]
    refine ih ?_
    intro y hy z hz
    rcases hinv y hy z hz with h | h
    · exact Or.inl h
    · rcases List.mem_cons.mp h with rfl | h2
      · exact Or.inl hd
      · exact Or.inr h2
  | case3 visited d rest hd ih =>
    intro hinv
    rw [findAllGo, if_neg hd]
    refine ih ?_
    intro y hy z hz
    rcases List.mem_cons.mp hy with rfl | hy2
    · exact Or.inr (List.mem_append.mpr (Or.inl (List.mem_reverse.mpr hz)))
    · rcases hinv y hy2 z hz with h | h
      · exact Or.inl (List.mem_cons_of_mem _ h)
      · rcases List.mem_cons.mp h with rfl | h2
        · exact Or.inl (List.mem_cons_self _ _)
        · exact Or.inr (List.mem_append.mpr (Or.inr h2))

/-- Everything in the result was visited before or is reachable from the
stack. -/
theorem findAllGo_sound (m : Manifests) : ∀ (visited stack : List String) (x : String),
    x ∈ findAllGo m visited stack → x ∈ visited ∨ ReachesFrom m stack x := by
  intro visited stack
  induction visited, stack using findAllGo.induct m with
  | case1 visited =>
    intro x hx
    rw [findAllGo] at hx
    exact Or.inl hx
  | case2 visited d rest hd ih =>
    intro x hx
    rw [findAllGo, if_pos hd] at hx
    rcases ih x hx with h | h
    · exact Or.inl h
    · exact Or.inr (reaches_mono h (fun y hy => .base (List.mem_cons_of_mem _ hy)))
  | case3 visited d rest hd ih =>
    intro x hx
    rw [findAllGo, if_neg hd] at hx
    rcases ih x hx with h | h
    · rcases List.mem_cons.mp h with rfl | h2
      · exact Or.inr (.base (List.mem_cons_self _ _))
      · exact Or.inl h2
    · refine Or.inr (reaches_mono h ?_)
      intro y hy
      rcases List.mem_append.mp hy with hy1 | hy2
      · exact .step (.base (List.mem_cons_self _ _)) (List.mem_reverse.mp hy1)
      · exact .base (List.mem_cons_of_mem _ hy2)

/-- The visited list stays duplicate free. -/
theorem findAllGo_nodup (m : Manifests) : ∀ (visited stack : List String),
    visited.Nodup → (findAllGo m visited stack).Nodup := by
  intro visited stack
  induction visited, stack using findAllGo.induct m with
  | case1 visited => intro h; rw [findAllGo]; exact h
  | case2 visited d rest hd ih =>
    intro h
    rw [findAllGo, if_pos hd]
    exact ih h
  | case3 visited d rest hd ih =>
    intro h
    rw [findAllGo, if_neg hd]
    exact ih (List.nodup_cons.mpr ⟨hd, h⟩)

/-- C8: for every manifest graph, cyclic or not, the transitive
path-dependency computation is total (the worklist loop is well founded) and
returns, without duplicates, exactly the directories reachable from the
immediate path dependencies by following each manifest in turn. -/
theorem find_all_path_dependencies_reachable (m : Manifests) (immediate : List String) :
    (_find_all_path_dependencies m immediate).Nodup
      ∧ ∀ x, x ∈ _find_all_path_dependencies m immediate ↔ ReachesFrom m immediate x := by
  cases immediate with
  | nil =>
    refine ⟨by simp [_find_all_path_dependencies], ?_⟩
    intro x
    simp only [_find_all_path_dependencies]
    exact iff_of_false (List.not_mem_nil x) not_reaches_nil
  | cons a as =>
    have hperm : List.Perm
        (List.insertionSort (fun a b => a ≤ b) (findAllGo m [] (a :: as).reverse))
        (findAllGo m [] (a :: as).reverse) :=
      List.perm_insertionSort _ _
    constructor
    · exact hperm.nodup_iff.mpr (findAllGo_nodup m [] _ List.nodup_nil)
    · intro x
      show x ∈ List.insertionSort (fun a b => a ≤ b) (findAllGo m [] (a :: as).reverse) ↔ _
      rw [hperm.mem_iff]
      constructor
      · intro hx
        rcases findAllGo_sound m [] _ x hx with h | h
        · simp at h
        · exact reaches_mono h (fun y hy => .base (List.mem_reverse.mp hy))
      · intro h
        have hclosed := findAllGo_closed m [] (a :: as).reverse
          (fun y hy => absurd hy (List.not_mem_nil _))
        have hstack := findAllGo_sub_stack m [] (a :: as).reverse
        induction h with
        | base hx => exact hstack _ (List.mem_reverse.mpr hx)
        | step _ hdep ih => exact hclosed _ ih _ hdep

/-! ## C2 -/

/-- C2: the up-to-date decision procedure evaluates its checks in the spec
order (force rebuild, spec found, installed root found, installed mtime
computable, project-mtime comparison, cached status present, source path
match, tolerance-based mtime match, args match), short-circuits at the first
failing check with a reason distinct per check, and returns fresh exactly
when every check passes; the build_mtime comparison is approximate, not
exact: there are unequal timestamps that isclose accepts. -/
theorem up_to_date_decision_sequence
    (force_rebuild spec_found : Bool) (installed_root : Option (FsPath × Option FSEntry))
    (project_dir : DirOnDisk) (all_path_dependencies : List DirOnDisk)
    (names : List String) (cache : Cache) (settings_args : List String)
    (st? : Option BuildStatus)
    (hcache : get_build_status cache (pathStr project_dir.1) = .ok st?)
    (htyped : ∀ st, st? = some st → ∃ q, st.build_mtime = Json.num q) :
    (_get_spec_for_up_to_date_package force_rebuild spec_found installed_root project_dir
        all_path_dependencies names cache settings_args
      = renderCheck (firstFail (specCheckList force_rebuild spec_found installed_root
          project_dir all_path_dependencies names st? settings_args)))
      ∧ ((specCheckList force_rebuild spec_found installed_root project_dir
          all_path_dependencies names st? settings_args).map Prod.snd).Nodup
      ∧ (∀ l : List (Bool × String), firstFail l = none ↔ ∀ e ∈ l, e.1 = true)
      ∧ (∃ a b : ℚ, a ≠ b ∧ isclose a b = true) := by
  refine ⟨oracle_eq_firstFail force_rebuild spec_found installed_root project_dir
      all_path_dependencies names cache settings_args st? hcache htyped,
    ?_, firstFail_eq_none_iff, ?_⟩
  · simp only [specCheckList, List.map]
    decide
  · refine ⟨1, 1 + 1 / 10000000000, by norm_num, ?_⟩
    simp only [isclose, decide_eq_true_eq]
    have h1 : |(1 : ℚ) - (1 + 1 / 10000000000)| = 1 / 10000000000 := by
      rw [show (1 : ℚ) - (1 + 1 / 10000000000) = -(1 / 10000000000) by ring, abs_neg,
        abs_of_pos (by norm_num)]
    have h3 : |(1 : ℚ) + 1 / 10000000000| = 1 + 1 / 10000000000 :=
      abs_of_pos (by norm_num)
    rw [h1, abs_one, h3, max_eq_right (by norm_num : (1 : ℚ) ≤ 1 + 1 / 10000000000)]
    refine le_max_of_le_left ?_
    norm_num

/-- Witness for C2: the decision sequence equation at a concrete world with
the force-rebuild flag set and an empty cache. -/
theorem up_to_date_decision_sequence_witness :
    _get_spec_for_up_to_date_package true false none (["p"], none) [] [] [] []
      = renderCheck (firstFail (specCheckList true false none (["p"], none) [] [] none [])) :=
  (up_to_date_decision_sequence true false none (["p"], none) [] [] [] [] none rfl
    (fun _ h => nomatch h)).1

/-! ## C3 -/

/-- C3: for N greater-or-equal 2 processes concurrently importing the same
never-before-built source, serialized by the build-cache lock
(BuildCache.lock wraps the whole check-and-build of _rebuild_project),
exactly one process invokes the build tool and stores a BuildStatus, and the
other N-1 find the stored status valid (their check returns fresh) and do not
rebuild. The effect of the external build tool is modelled from the spec: a
completed build makes the freshness check of any later identical process
return fresh. -/
theorem serialized_first_import_builds_once {W : Type} (check : W → UpToDateResult)
    (build : W → W) (w0 : W) (N : ℕ) (hN : 2 ≤ N) (hnew : check w0 ≠ .fresh)
    (hbuilt : ∀ w, check (build w) = .fresh) :
    (run_serialized check build N w0).2 = 1 := by
  obtain ⟨n, rfl⟩ : ∃ n, N = n + 1 := ⟨N - 1, by omega⟩
  obtain ⟨r, hr⟩ : ∃ r, check w0 = .stale r := by
    cases hc : check w0 with
    | fresh => exact absurd hc hnew
    | stale r => exact ⟨r, rfl⟩
  rw [run_serialized]
  simp only [rebuild_project_locked, hr]
  rw [run_serialized_fresh check build n (build w0) (hbuilt w0)]
  simp

/-- Witness for C3: two processes, a world that is a single boolean recording
whether the module was built, a check that is fresh exactly on a built
world. -/
theorem serialized_first_import_builds_once_witness :
    (run_serialized (fun w : Bool => if w then .fresh else .stale "no build status found")
      (fun _ => true) 2 false).2 = 1 :=
  serialized_first_import_builds_once _ _ false 2 (by omega) (by simp) (fun w => by simp)

/-! ## C5 -/

/-- With a pre-existing lock file and no process ever removing it, every pass
of the polling loop fails with EEXIST and the loop times out. -/
theorem atomic_acquire_loop_stale : ∀ fuel : ℕ,
    atomic_acquire_loop true fuel = ((true, false), some .timeoutError)
  | 0 => rfl
  | n + 1 => by
    rw [atomic_acquire_loop]
    simpa [atomic_try_acquire] using atomic_acquire_loop_stale n

/-- C5 counterexample: with the lock file already existing and no live holder
(nobody ever unlinks it), acquire() on a fresh AtomicOpenLock instance does
not obtain the lock: it raises TimeoutError, leaving the lock unacquired
(here with 5 polling retries allowed by the timeout). -/
theorem atomic_acquire_stale_file_counterexample :
    atomic_acquire true false 5 = ((true, false), some .timeoutError)
      ∧ (atomic_acquire true false 5).2 ≠ none
      ∧ (atomic_acquire true false 5).1.2 ≠ true := by
  refine ⟨rfl, by decide, by decide⟩

/-- C5 amended: the atomic-create fallback lock treats a pre-existing lock
file exactly like a held lock: for every timeout budget, acquire() on a fresh
instance fails with TimeoutError while the file exists and nobody removes it;
acquisition succeeds at once when the file is absent; and the file is only
removed by release(), after which a fresh acquire succeeds again. -/
theorem atomic_acquire_stale_file_amended :
    (∀ fuel : ℕ, atomic_acquire true false fuel = ((true, false), some .timeoutError))
      ∧ (∀ fuel : ℕ, atomic_acquire false false fuel = ((true, true), none))
      ∧ atomic_release true true = (false, false)
      ∧ (∀ fuel : ℕ,
          atomic_acquire (atomic_release true true).1 (atomic_release true true).2 fuel
            = ((true, true), none)) := by
  refine ⟨fun fuel => ?_, fun fuel => by cases fuel <;> rfl, rfl,
    fun fuel => by cases fuel <;> rfl⟩
  simpa [atomic_acquire] using atomic_acquire_loop_stale fuel

/-! ## C6 -/

/-- C6: on one FcntlFileLock instance (on a filesystem supporting flock),
acquire on an already-locked instance raises LockError immediately, with the
state unchanged and independent of the timeout budget; release always leaves
the state unlocked, with no error, including releasing an unlocked instance
(a no-op) and the implicit release on destruction; a successful acquire sets
is_locked; a contended acquire times out leaving is_locked false; and over
every operation sequence is_locked equals the claimed net acquisition
state. -/
theorem file_lock_state_machine :
    (∀ (fu oh : Bool) (fuel : ℕ), file_lock_acquire fu oh true fuel = .error .lockError)
      ∧ (∀ (fu s : Bool), lock_step fu s .rel = (false, none))
      ∧ (∀ (fu : Bool), lock_step fu false .rel = (false, none))
      ∧ (∀ (fu s : Bool), lock_step fu s .del = (false, none))
      ∧ (∀ fuel : ℕ, lock_step false false (.acq false fuel) = (true, none))
      ∧ (∀ fuel : ℕ, lock_step false false (.acq true fuel) = (false, some .timeoutError))
      ∧ (∀ (fu s : Bool) (ops : List LockOp), lock_run fu s ops = net_run fu s ops) := by
  have hstep : ∀ (fu s : Bool) (op : LockOp),
      (lock_step fu s op).1 = net_step fu s op := by
    intro fu s op
    cases op with
    | acq oh fuel =>
      cases s with
      | true => simp [lock_step, net_step, file_lock_acquire]
      | false =>
        cases fu with
        | true => simp [lock_step, net_step, file_lock_acquire,
            acquire_loop_unsupported oh fuel]
        | false =>
          cases oh with
          | true => simp [lock_step, net_step, acquire_loop_contended fuel,
              file_lock_acquire]
          | false => simp [lock_step, net_step, file_lock_acquire,
              acquire_loop_free fuel]
    | rel => cases s <;> simp [lock_step, net_step, fcntl_release]
    | del => cases s <;> simp [lock_step, net_step, fcntl_release]
  refine ⟨fun fu oh fuel => rfl, ?_, ?_, ?_, ?_, ?_, ?_⟩
  · intro fu s; cases s <;> rfl
  · intro fu; rfl
  · intro fu s; cases s <;> rfl
  · intro fuel
    simp [lock_step, file_lock_acquire, acquire_loop_free fuel]
  · intro fuel
    simp [lock_step, file_lock_acquire, acquire_loop_contended fuel]
  · intro fu s ops
    induction ops generalizing s with
    | nil => rfl
    | cons op rest ih =>
      rw [lock_run, net_run, hstep fu s op]
      exact ih _

/-! ## C7 -/

/-- C7: storing a BuildStatus with well-formed fields (a numeric build_mtime,
a string source path, a list of argument strings, an output string) and then
reading the status for the same source path on the same locked cache returns
a status equal to the stored one in all four fields. -/
theorem store_then_get_roundtrip (c : Cache) (s : BuildStatus)
    (_h1 : ∃ q, s.build_mtime = Json.num q)
    (_h2 : ∃ args : List String, s.maturin_args = argsJson args)
    (_h3 : ∃ out, s.maturin_output = Json.str out) :
    get_build_status (store_build_status c s) s.source_path = .ok (some s) := by
  simp only [get_build_status, store_build_status, List.lookup, beq_self_eq_true]
  simp only [BuildStatus.from_json, BuildStatus.to_json, pySubscript, List.lookup,
    beq_self_eq_true, pyPath]
  rfl

/-- Witness for C7 at the scenario of the spec test section: build_mtime 1.2,
source path src1, args [a], output ok. -/
theorem store_then_get_roundtrip_witness :
    get_build_status
        (store_build_status []
          ⟨Json.num (6 / 5), "src1", argsJson ["a"], Json.str "ok"⟩) "src1"
      = .ok (some ⟨Json.num (6 / 5), "src1", argsJson ["a"], Json.str "ok"⟩) :=
  store_then_get_roundtrip []
    ⟨Json.num (6 / 5), "src1", argsJson ["a"], Json.str "ok"⟩
    ⟨6 / 5, rfl⟩ ⟨["a"], rfl⟩ ⟨"ok", rfl⟩

/-! ## C4 -/

/-- C4 counterexample: a record file containing invalid JSON makes
get_build_status raise json.JSONDecodeError to the caller (json.load raises
it and only FileNotFoundError is caught), so the cache miss claim fails:
the result is an exception, not None. -/
theorem get_build_status_invalid_json_counterexample :
    get_build_status [("src", RecordFile.invalidJson)] "src" = .exc .jsonDecodeError
      ∧ get_build_status [("src", RecordFile.invalidJson)] "src" ≠ .ok none := by
  constructor
  · rfl
  · intro h
    rw [(by rfl : get_build_status [("src", RecordFile.invalidJson)] "src"
      = .exc .jsonDecodeError)] at h
    exact PyResult.noConfusion h

/-- C4 amended: get_build_status returns None (a cache miss) when the record
file is absent and when the stored JSON object lacks any of the four required
keys (the KeyError is caught); but it is not exception free on every
malformed record: invalid JSON raises JSONDecodeError, a record whose JSON is
not an object raises TypeError from the string subscript, and an object whose
source_path value is not a string raises TypeError from the Path
constructor. A complete well-shaped object parses into the corresponding
status. -/
theorem get_build_status_malformed_amended :
    (∀ (c : Cache) (p : String), c.lookup p = none → get_build_status c p = .ok none)
      ∧ (∀ (c : Cache) (p : String), c.lookup p = some .invalidJson →
          get_build_status c p = .exc .jsonDecodeError)
      ∧ (∀ q : ℚ, BuildStatus.from_json (.num q) = .exc .typeError)
      ∧ (∀ s : String, BuildStatus.from_json (.str s) = .exc .typeError)
      ∧ (∀ l : List Json, BuildStatus.from_json (.arr l) = .exc .typeError)
      ∧ (∀ fields : List (String × Json), fields.lookup "build_mtime" = none →
          BuildStatus.from_json (.obj fields) = .ok none)
      ∧ (∀ (fields : List (String × Json)) (v : Json),
          fields.lookup "build_mtime" = some v → fields.lookup "source_path" = none →
          BuildStatus.from_json (.obj fields) = .ok none)
      ∧ (∀ (fields : List (String × Json)) (v : Json) (sp : String),
          fields.lookup "build_mtime" = some v →
          fields.lookup "source_path" = some (.str sp) →
          fields.lookup "maturin_args" = none →
          BuildStatus.from_json (.obj fields) = .ok none)
      ∧ (∀ (fields : List (String × Json)) (v : Json) (sp : String) (args : Json),
          fields.lookup "build_mtime" = some v →
          fields.lookup "source_path" = some (.str sp) →
          fields.lookup "maturin_args" = some args →
          fields.lookup "maturin_output" = none →
          BuildStatus.from_json (.obj fields) = .ok none)
      ∧ (∀ (fields : List (String × Json)) (v w : Json),
          fields.lookup "build_mtime" = some v →
          fields.lookup "source_path" = some w → pyPath w = .exc .typeError →
          BuildStatus.from_json (.obj fields) = .exc .typeError)
      ∧ (∀ (fields : List (String × Json)) (v : Json) (sp : String) (args out : Json),
          fields.lookup "build_mtime" = some v →
          fields.lookup "source_path" = some (.str sp) →
          fields.lookup "maturin_args" = some args →
          fields.lookup "maturin_output" = some out →
          BuildStatus.from_json (.obj fields) = .ok (some ⟨v, sp, args, out⟩)) := by
  refine ⟨?_, ?_, fun q => rfl, fun s => rfl, fun l => rfl, ?_, ?_, ?_, ?_, ?_, ?_⟩
  · intro c p h; simp [get_build_status, h]
  · intro c p h; simp [get_build_status, h]
  · intro fields h; simp [BuildStatus.from_json, pySubscript, h]
  · intro fields v h1 h2; simp [BuildStatus.from_json, pySubscript, h1, h2]
  · intro fields v sp h1 h2 h3
    simp [BuildStatus.from_json, pySubscript, pyPath, h1, h2, h3]
  · intro fields v sp args h1 h2 h3 h4
    simp [BuildStatus.from_json, pySubscript, pyPath, h1, h2, h3, h4]
  · intro fields v w h1 h2 h3
    cases w <;> simp_all [BuildStatus.from_json, pySubscript, pyPath]
  · intro fields v sp args out h1 h2 h3 h4
    simp [BuildStatus.from_json, pySubscript, pyPath, h1, h2, h3, h4]

/-- Witness for C4 amended: a record whose object lacks every key parses to
None, and an empty cache misses. -/
theorem get_build_status_malformed_amended_witness :
    BuildStatus.from_json (.obj []) = .ok none
      ∧ get_build_status [] "src" = .ok none :=
  ⟨get_build_status_malformed_amended.2.2.2.2.2.1 [] rfl,
    get_build_status_malformed_amended.1 [] "src" rfl⟩

/-! ## C10 -/

/-- C10: MaturinSettings() translates to no arguments while the hook default
MaturinSettings.default() (used by get_settings when no settings are
supplied) translates to exactly --color always; the two argument lists
differ, and a status recorded under the hook default fails the args-equality
freshness check when the current check runs with MaturinSettings(), with the
reason string of the args check. -/
theorem default_settings_args_mismatch :
    (({} : MaturinSettings).to_args = [])
      ∧ (MaturinSettings.default.to_args = ["--color", "always"])
      ∧ (importer_get_settings none = MaturinSettings.default)
      ∧ (({} : MaturinSettings).to_args ≠ MaturinSettings.default.to_args)
      ∧ (∀ im pm : ℚ, pm ≤ im →
          _get_spec_for_up_to_date_package false true
            (some (["site"], some (.file "pkg.so" im)))
            (["proj"], some [.file "lib.rs" pm]) [] []
            (store_build_status []
              ⟨Json.num im, "proj", argsJson MaturinSettings.default.to_args, Json.str "out"⟩)
            ({} : MaturinSettings).to_args
          = .ok (.stale "current maturin args do not match the previous build")) := by
  refine ⟨rfl, rfl, rfl, by decide, ?_⟩
  intro im pm hle
  rw [oracle_eq_firstFail false true (some (["site"], some (.file "pkg.so" im)))
    (["proj"], some [.file "lib.rs" pm]) [] []
    (store_build_status []
      ⟨Json.num im, "proj", argsJson MaturinSettings.default.to_args, Json.str "out"⟩)
    (({} : MaturinSettings).to_args)
    (some ⟨Json.num im, "proj", argsJson MaturinSettings.default.to_args, Json.str "out"⟩)
    rfl (fun st hst => ⟨im, by cases hst; rfl⟩)]
  simp only [specCheckList, firstFail, renderCheck, _get_installed_package_mtime,
    _package_is_up_to_date, _get_project_mtime, getFilesInDirs, filesOfList, filesOfEntry,
    pyMax, mathIsClose, isCloseOk, isclose_self, Option.bind, Option.isSome]
  simp [firstFail, pathStr, decide_eq_true (show im ≥ pm from hle), isclose_self,
    Json.beq, Json.beqList, argsJson, MaturinSettings.default, MaturinSettings.to_args]

/-- Witness for C10: the stale-args outcome at concrete timestamps 10 and 5. -/
theorem default_settings_args_mismatch_witness :
    _get_spec_for_up_to_date_package false true
        (some (["site"], some (.file "pkg.so" 10)))
        (["proj"], some [.file "lib.rs" 5]) [] []
        (store_build_status []
          ⟨Json.num 10, "proj", argsJson MaturinSettings.default.to_args, Json.str "out"⟩)
        ({} : MaturinSettings).to_args
      = .ok (.stale "current maturin args do not match the previous build") :=
  default_settings_args_mismatch.2.2.2.2 10 5 (by norm_num)

end Maturin
